import Mathlib

/-
Verification of the FGP daemon core (fgp_blender): the async job queue
(src/blender/src/fgp_blender/jobs.py), the session manager
(src/blender/src/fgp_blender/session.py) and the request handler /
main-thread execution bridge (src/blender/scripts/run_daemon_gui_v2.py),
shallowly embedded in Lean.

Modelling conventions:
- Python dicts become association lists `Dict V = List (String × V)` with
  lookup `dget`, replace-or-append assignment `dset`, in-place update
  `dmodify` and key removal `ddel` (Python dict keys are unique, so
  removing every occurrence coincides with `pop`).
- Timestamps: the code stores `datetime.now(timezone.utc).isoformat()`
  strings and compares them lexicographically (`cleanup`); for equal-format
  UTC ISO-8601 strings that order agrees with chronological order, so
  instants are modelled as `Nat` (seconds) and `now` is passed explicitly.
- Job handlers are opaque callables; the handler table `_handlers` is
  modelled by the list of job ids holding a handler, and a handler run is
  parameterised by its outcome (returned result or raised exception) and
  by the sequence of progress-callback invocations it performs.
- `progress` floats are modelled as rationals: the clamping logic uses
  only `min`/`max`/ordering, which rationals model exactly.
- Filesystem side effects (`.blend` backing files) are modelled as the
  list of existing paths; `Path.unlink`/existence checks act on it.
- Persistence (`_save_jobs` / `_save_sessions`) is best-effort and does
  not feed back into in-memory state, so it is not modelled; `_load_jobs`
  takes the persisted record list as input.
-/

namespace Fgp

/-- Association-list model of a Python dict keyed by strings. -/
abbrev Dict (V : Type) := List (String × V)

/-- Dict lookup (`d.get(k)` / `d[k]`). -/
def dget {V : Type} : Dict V → String → Option V
  | [], _ => none
  | (k, v) :: rest, key => if k = key then some v else dget rest key

/-- Dict assignment `d[k] = v`: replace the binding if the key is present,
append otherwise. -/
def dset {V : Type} : Dict V → String → V → Dict V
  | [], key, v => [(key, v)]
  | (k, w) :: rest, key, v =>
      if k = key then (key, v) :: rest else (k, w) :: dset rest key v

/-- In-place mutation of the value stored under a key (Python mutates the
object held in the dict); no effect when the key is absent. -/
def dmodify {V : Type} : Dict V → String → (V → V) → Dict V
  | [], _, _ => []
  | (k, w) :: rest, key, f =>
      if k = key then (k, f w) :: rest else (k, w) :: dmodify rest key f

/-- Dict deletion `d.pop(k, None)` / `del d[k]` (removes every occurrence;
identical to `pop` on unique-key dicts). -/
def ddel {V : Type} : Dict V → String → Dict V
  | [], _ => []
  | (k, w) :: rest, key =>
      if k = key then ddel rest key else (k, w) :: ddel rest key

/-! ### Job queue data model (src/blender/src/fgp_blender/jobs.py) -/

/-- Job status values (`class JobStatus`). -/
inductive JobStatus
  | pending
  | running
  | completed
  | failed
  | cancelled
deriving DecidableEq

/-- Types of async jobs (`class JobType`). -/
inductive JobType
  | render_image
  | render_animation
  | bake_physics
  | bake_textures
  | export
deriving DecidableEq

/-- Parameter bags / results: opaque JSON-like string mappings. -/
abbrev Params := Dict String

/-- A queued async job (`@dataclass class Job`). -/
structure Job where
  id : String
  job_type : JobType
  status : JobStatus
  created_at : Nat
  started_at : Option Nat := none
  completed_at : Option Nat := none
  progress : ℚ := 0
  progress_message : String := ""
  params : Params := []
  result : Option Params := none
  error : Option String := none
  session_id : Option String := none
deriving DecidableEq

/-- A terminal status (`COMPLETED`, `FAILED`, `CANCELLED`). -/
def isTerminal : JobStatus → Bool
  | .completed => true
  | .failed => true
  | .cancelled => true
  | _ => false

/-- In-memory state of `class JobQueue`: the `_jobs` table, the set of job
ids with a registered handler (`_handlers`), and the FIFO of queued ids
(`_queue`). -/
structure JobQueue where
  jobs : Dict Job
  handlers : List String
  queue : List String
deriving DecidableEq

/-- The empty queue (fresh construction with no persisted log). -/
def JobQueue.empty : JobQueue := ⟨[], [], []⟩

/-- Outcome of running a job handler: the returned result, or the message
of the exception it raised. -/
inductive HandlerOutcome
  | success (result : Params)
  | failure (msg : String)
deriving DecidableEq

/-- The Python builtin `max` on two rationals (`max(a, b)` returns `b`
exactly when `a < b`); provably equal to `Max.max`. -/
def pymax (a b : ℚ) : ℚ := if a < b then b else a

/-- The Python builtin `min` on two rationals; provably equal to
`Min.min`. -/
def pymin (a b : ℚ) : ℚ := if b < a then b else a

/-- The nested `progress_callback` of `JobQueue._process_job` (jobs.py
lines 232-237): when the job is still in the table, store the progress
clamped to `[0, 1]` and the message. -/
def JobQueue.progress_callback (q : JobQueue) (job_id : String) (progress : ℚ)
    (message : String) : JobQueue :=
  match dget q.jobs job_id with
  | none => q
  | some _ =>
      let f : Job → Job := fun j =>
        { j with progress := pymin (pymax progress 0) 1, progress_message := message }
      { q with jobs := dmodify q.jobs job_id f }

/-- `JobQueue._process_job` (jobs.py lines 214-260), with the handler run
replaced by its outcome and the list of progress-callback invocations it
makes. A missing job is skipped; a missing handler marks the job `failed`
with error "No handler registered"; otherwise the job is claimed
(`running`, `started_at`), the progress calls of the handler are applied, and
the job is finalised `completed` (progress forced to 1, result stored) or
`failed` (error stored), after which the handler entry is dropped. -/
def JobQueue.processJob (q : JobQueue) (job_id : String)
    (outcome : HandlerOutcome) (pcs : List (ℚ × String)) (ts te : Nat) :
    JobQueue :=
  match dget q.jobs job_id with
  | none => q
  | some job =>
      if job_id ∈ q.handlers then
        let claimed : Job := { job with status := .running, started_at := some ts }
        let q1 : JobQueue := { q with jobs := dset q.jobs job_id claimed }
        let q2 : JobQueue :=
          pcs.foldl (fun acc pc => acc.progress_callback job_id pc.1 pc.2) q1
        let fin : Job → Job :=
          match outcome with
          | .success r => fun j =>
              { j with status := .completed, completed_at := some te, progress := 1, result := some r }
          | .failure msg => fun j =>
              { j with status := .failed, completed_at := some te, error := some msg }
        let q3 : JobQueue := { q2 with jobs := dmodify q2.jobs job_id fin }
        { q3 with handlers := q3.handlers.filter (fun h => h ≠ job_id) }
      else
        let doomed : Job := { job with status := .failed, error := some "No handler registered" }
        { q with jobs := dset q.jobs job_id doomed }

/-- `JobQueue.submit` (jobs.py lines 262-301): record a fresh `pending`
job, register its handler, enqueue its id. The uuid-generated id is a
parameter. -/
def JobQueue.submit (q : JobQueue) (job_id : String) (jt : JobType)
    (params : Params) (session_id : Option String) (now : Nat) :
    JobQueue × String :=
  let job : Job :=
    { id := job_id, job_type := jt, status := .pending, created_at := now,
      params := params, session_id := session_id }
  ({ jobs := dset q.jobs job_id job,
     handlers := if job_id ∈ q.handlers then q.handlers else job_id :: q.handlers,
     queue := q.queue ++ [job_id] }, job_id)

/-- `JobQueue.cancel` (jobs.py lines 343-367): returns false for an
unknown id or a job not `pending`; otherwise marks the job `cancelled`,
sets `completed_at`, drops the handler entry and returns true. The id is
left in the FIFO. -/
def JobQueue.cancel (q : JobQueue) (job_id : String) (now : Nat) :
    JobQueue × Bool :=
  match dget q.jobs job_id with
  | none => (q, false)
  | some job =>
      if job.status ≠ JobStatus.pending then (q, false)
      else
        let job1 : Job := { job with status := .cancelled, completed_at := some now }
        ({ q with jobs := dset q.jobs job_id job1,
                  handlers := q.handlers.filter (fun h => h ≠ job_id) }, true)

/-- `JobQueue.cleanup` (jobs.py lines 397-424): remove every job whose
status is terminal and whose `completed_at` is set and older than
`now - max_age_hours` (the code compares ISO strings lexicographically,
which agrees with this numeric order), and return the number removed. -/
def JobQueue.cleanup (q : JobQueue) (now max_age_hours : Nat) :
    JobQueue × Nat :=
  let cutoff := now - max_age_hours * 3600
  let doomed : String × Job → Bool := fun kv =>
    isTerminal kv.2.status &&
      (match kv.2.completed_at with
       | some t => decide (t < cutoff)
       | none => false)
  ({ q with jobs := q.jobs.filter (fun kv => !(doomed kv)) },
   (q.jobs.filter doomed).length)

/-- One record-load step of `JobQueue._load_jobs` (jobs.py lines 129-147):
store the record; a `pending`/`running` record is reset to `pending` with
progress 0 and its id re-queued. -/
def loadOne (q : JobQueue) (job : Job) : JobQueue :=
  if job.status = JobStatus.pending ∨ job.status = JobStatus.running then
    let job1 : Job := { job with status := .pending, progress := 0 }
    { q with jobs := dset q.jobs job.id job1, queue := q.queue ++ [job.id] }
  else
    { q with jobs := dset q.jobs job.id job }

/-- `JobQueue._load_jobs` over a well-formed persisted record list,
starting from the freshly-constructed empty queue. -/
def load_jobs (records : List Job) : JobQueue :=
  records.foldl loadOne JobQueue.empty


/-! ### Job-queue operations as a step relation -/

/-- One externally observable operation on a `JobQueue`: a client `submit`
(the uuid-generated id is a parameter), a client `cancel`, one worker
pulling the head of the FIFO and running `_process_job` on it
(`_worker_loop`, jobs.py lines 198-212), or a `cleanup`. `get`, `list` and
`wait` only read the table and are omitted. -/
inductive Step
  | submitOp (job_id : String) (jt : JobType) (params : Params)
      (session_id : Option String) (now : Nat)
  | cancelOp (job_id : String) (now : Nat)
  | workOp (outcome : HandlerOutcome) (pcs : List (ℚ × String)) (ts te : Nat)
  | cleanupOp (now max_age_hours : Nat)
deriving DecidableEq

/-- Apply one step to the queue state. -/
def applyStep (q : JobQueue) : Step → JobQueue
  | .submitOp id jt ps sid now => (q.submit id jt ps sid now).1
  | .cancelOp id now => (q.cancel id now).1
  | .workOp outcome pcs ts te =>
      match q.queue with
      | [] => q
      | id :: rest => JobQueue.processJob { q with queue := rest } id outcome pcs ts te
  | .cleanupOp now h => (q.cleanup now h).1

/-- Reachable-state invariant: a job in a terminal status has no handler
entry (handlers are removed exactly when a job is finalised or
cancelled). -/
abbrev HandlersOk (q : JobQueue) : Prop :=
  ∀ kv ∈ q.jobs, isTerminal (Prod.snd (α := String) kv).status = true →
    kv.1 ∉ q.handlers

/-- Reachable-state invariant: a job whose id sits in the FIFO is either
still `pending` or was cancelled after being enqueued (ids enter the FIFO
only at `submit`/`_load_jobs` time, and `cancel` does not dequeue). -/
abbrev QueueOk (q : JobQueue) : Prop :=
  ∀ id ∈ q.queue, ∀ kv ∈ q.jobs, (Prod.fst (β := Job) kv) = id →
    kv.2.status = JobStatus.pending ∨ kv.2.status = JobStatus.cancelled

/-- Side condition of a step: `submit` uses a fresh uuid, so its id is not
already a key of the job table. -/
def StepOk (q : JobQueue) : Step → Prop
  | .submitOp id _ _ _ _ => dget q.jobs id = none
  | _ => True

/-- Reachability in the (amended) status-transition graph
`pending → running → (completed | failed)`, `pending → cancelled`,
`cancelled → failed`. -/
def statusPath : JobStatus → JobStatus → Bool
  | .pending, _ => true
  | .running, .running => true
  | .running, .completed => true
  | .running, .failed => true
  | .cancelled, .cancelled => true
  | .cancelled, .failed => true
  | .completed, .completed => true
  | .failed, .failed => true
  | _, _ => false

/-! ### Session manager data model (src/blender/src/fgp_blender/session.py) -/

/-- A Blender session with isolated state (`@dataclass class Session`). -/
structure Session where
  id : String
  name : String
  blend_file : String
  created_at : Nat
  modified_at : Nat
  is_default : Bool := false
  metadata : Dict String := []
deriving DecidableEq

/-- In-memory state of `class SessionManager`: the `sessions` index, the
`current_session_id` pointer, and (modelling the filesystem) the list of
`.blend` backing files that currently exist on disk. -/
structure SessionManager where
  sessions : Dict Session
  current_session_id : Option String
  files : List String
deriving DecidableEq

/-- Errors raised by session operations (the code raises `ValueError`;
the dispatcher maps them to the spec error taxonomy). -/
inductive SessionError
  | notFound (id : String)
  | invalidOperation (msg : String)
deriving DecidableEq

/-- The first session in index order flagged `is_default`
(`next((s for s in self.sessions.values() if s.is_default), None)`). -/
def firstDefault (sessions : Dict Session) : Option Session :=
  (sessions.map Prod.snd).find? (fun s => s.is_default)

/-- `SessionManager.create` (session.py lines 131-160): insert a fresh
non-default session; the uuid-generated id is a parameter; the backing
file is not created yet. -/
def SessionManager.create (m : SessionManager) (name : String)
    (metadata : Dict String) (new_id : String) (now : Nat) :
    SessionManager × Session :=
  let s : Session :=
    { id := new_id, name := name, blend_file := "sessions/" ++ new_id ++ ".blend",
      created_at := now, modified_at := now, is_default := false,
      metadata := metadata }
  ({ m with sessions := dset m.sessions new_id s }, s)

/-- `SessionManager.get_current` (session.py lines 166-170). -/
def SessionManager.get_current (m : SessionManager) : Option Session :=
  match m.current_session_id with
  | none => none
  | some cid => dget m.sessions cid

/-- `SessionManager.switch` (session.py lines 172-193): raise not-found if
the id is absent (state untouched), else point `current_session_id` at it.
The returned pair is the post-raise state and the outcome. -/
def SessionManager.switch (m : SessionManager) (session_id : String) :
    SessionManager × Except SessionError Session :=
  match dget m.sessions session_id with
  | none => (m, .error (.notFound session_id))
  | some s => ({ m with current_session_id := some session_id }, .ok s)

/-- `SessionManager.list` (session.py lines 195-197). -/
def SessionManager.list (m : SessionManager) : List Session :=
  m.sessions.map Prod.snd

/-- `SessionManager.delete` (session.py lines 199-236): false for an
unknown id; raise invalid-operation on the default session (before any
mutation); otherwise unlink the backing file if present, drop the index
entry, and if the deleted session was current re-point
`current_session_id` at the first default (left unchanged when no default
remains). -/
def SessionManager.delete (m : SessionManager) (session_id : String) :
    SessionManager × Except SessionError Bool :=
  match dget m.sessions session_id with
  | none => (m, .ok false)
  | some s =>
      if s.is_default then
        (m, .error (.invalidOperation "Cannot delete default session"))
      else
        let files1 := m.files.filter (fun p => p ≠ s.blend_file)
        let sessions1 := ddel m.sessions session_id
        let current1 :=
          if m.current_session_id = some session_id then
            match firstDefault sessions1 with
            | some d => some d.id
            | none => m.current_session_id
          else m.current_session_id
        ({ sessions := sessions1, current_session_id := current1,
           files := files1 }, .ok true)

/-- `SessionManager.reset` (session.py lines 238-266): resolve the target
(argument, else current), raise if none or unknown; unlink the backing
file if present and touch `modified_at`, leaving identity and metadata
alone. -/
def SessionManager.reset (m : SessionManager) (session_id : Option String)
    (now : Nat) : SessionManager × Except SessionError Session :=
  match session_id.orElse (fun _ => m.current_session_id) with
  | none =>
      (m, .error (.invalidOperation "No session specified and no current session"))
  | some sid =>
      match dget m.sessions sid with
      | none => (m, .error (.notFound sid))
      | some s =>
          let s1 : Session := { s with modified_at := now }
          ({ m with sessions := dset m.sessions sid s1,
                    files := m.files.filter (fun p => p ≠ s.blend_file) }, .ok s1)

/-- `SessionManager.update_modified` (session.py lines 268-273). -/
def SessionManager.update_modified (m : SessionManager)
    (session_id : Option String) (now : Nat) : SessionManager :=
  match session_id.orElse (fun _ => m.current_session_id) with
  | none => m
  | some sid =>
      match dget m.sessions sid with
      | none => m
      | some s =>
          let s1 : Session := { s with modified_at := now }
          { m with sessions := dset m.sessions sid s1 }

/-- One state-changing operation of the `SessionManager` (`get`,
`get_current`, `list` and `get_blend_file` are read-only and omitted). -/
inductive SMOp
  | createOp (name : String) (metadata : Dict String) (new_id : String) (now : Nat)
  | switchOp (session_id : String)
  | deleteOp (session_id : String)
  | resetOp (session_id : Option String) (now : Nat)
  | touchOp (session_id : Option String) (now : Nat)
deriving DecidableEq

/-- Apply one session-manager operation to the state. -/
def applySM (m : SessionManager) : SMOp → SessionManager
  | .createOp name md nid now => (m.create name md nid now).1
  | .switchOp sid => (m.switch sid).1
  | .deleteOp sid => (m.delete sid).1
  | .resetOp sid now => (m.reset sid now).1
  | .touchOp sid now => m.update_modified sid now

/-! ### Wire protocol and main-thread execution bridge
(src/blender/scripts/run_daemon_gui_v2.py; the protocol module
`fgp_daemon/protocol.py` is not part of src/ and is modelled from the
spec) -/

/-- Modelled from the spec: the closed error-code enumeration
`fgp_daemon.protocol.ErrorCodes` (the protocol module is not under src/),
covering parse error, method-not-found, invalid-params, internal error,
timeout (spec section 4.1 and section 7). -/
inductive ErrorCode
  | parseError
  | methodNotFound
  | invalidParams
  | internalError
  | timeoutExceeded
deriving DecidableEq

/-- Modelled from the spec: `fgp_daemon.protocol.Request` (not under
src/) — `{id, protocol_version v, method, params}` (spec section 3 and
section 6). -/
structure Request where
  id : String
  v : Nat
  method : String
  params : Params
deriving DecidableEq

/-- Modelled from the spec: `fgp_daemon.protocol.Response` (not under
src/) — a discriminated union `Success{id, result, server_ms}` /
`Failure{id, error:{code, message}, server_ms}` (spec section 3); the
result payload is opaque here. -/
inductive Response
  | success (id : String) (result : String) (server_ms : ℚ)
  | failure (id : String) (code : ErrorCode) (message : String) (server_ms : ℚ)
deriving DecidableEq

/-- Registration tables of the main-thread execution bridge
(run_daemon_gui_v2.py lines 33-36): `result_store` maps request ids to
`(status, data)` pairs with status `"ok"`/`"error"`, and `result_events`
is the set of request ids with a registered completion event. -/
structure BridgeState where
  result_store : Dict (String × String)
  result_events : List String
deriving DecidableEq

/-- Whether `event.wait(timeout=30.0)` returned before the deadline. -/
inductive WaitOutcome
  | completed
  | timedOut
deriving DecidableEq

/-- `handle_request` (run_daemon_gui_v2.py lines 109-146). The decode of
the input line is represented by its outcome (`Request.from_ndjson_line`
lives in the spec-modelled protocol module): on decode failure the
handler returns a `Failure` with code parse-error addressed to the
synthetic id `"unknown"`. Otherwise a completion event is registered, the
operation is queued for the main thread, and the handler blocks: if the
event fires, the stored result is popped, the event registration deleted,
and a success/internal-error response built from the stored status; on
timeout an internal-error "Operation timed out" failure is returned with
no cleanup of the tables. -/
def handle_request (st : BridgeState) (decoded : Except String Request)
    (wait : WaitOutcome) (elapsed : ℚ) : BridgeState × Response :=
  match decoded with
  | .error e =>
      (st, .failure "unknown" .parseError ("Invalid request: " ++ e) elapsed)
  | .ok req =>
      let ev1 := if req.id ∈ st.result_events then st.result_events
                 else req.id :: st.result_events
      let st1 : BridgeState := { st with result_events := ev1 }
      match wait with
      | .completed =>
          let sd := (dget st1.result_store req.id).getD ("error", "No result")
          let st2 : BridgeState :=
            { result_store := ddel st1.result_store req.id,
              result_events := st1.result_events.filter (fun i => i ≠ req.id) }
          if sd.1 = "ok" then (st2, .success req.id sd.2 elapsed)
          else (st2, .failure req.id .internalError sd.2 elapsed)
      | .timedOut =>
          (st1, .failure req.id .internalError "Operation timed out" elapsed)

/-- Keys of the session index agree with the ids stored in the sessions (the
manager always inserts under `session.id`). -/
abbrev KeysOk (sessions : Dict Session) : Prop :=
  ∀ kv ∈ sessions, (Prod.snd (α := String) kv).id = kv.1

/-- Concrete default session used to instantiate the theorems. -/
def sessionDefault : Session :=
  { id := "default", name := "Default", blend_file := "sessions/default.blend",
    created_at := 0, modified_at := 0, is_default := true }

/-- Concrete named session used to instantiate the theorems. -/
def sessionWork : Session :=
  { id := "s2", name := "Work", blend_file := "sessions/s2.blend",
    created_at := 1, modified_at := 1 }

/-- Concrete session-manager state: a default session plus a named
session "s2" which is current; both backing files exist. -/
def smExample : SessionManager :=
  { sessions := [("default", sessionDefault), ("s2", sessionWork)],
    current_session_id := some "s2",
    files := ["sessions/default.blend", "sessions/s2.blend"] }

/-- Concrete job fixtures: an old completed job and a pending job. -/
def jobOldDone : Job :=
  { id := "a", job_type := JobType.render_image, status := JobStatus.completed,
    created_at := 0, completed_at := some 100, progress := 1 }

/-- Concrete pending job used by the cleanup witness. -/
def jobPendingOld : Job :=
  { id := "b", job_type := JobType.export, status := JobStatus.pending,
    created_at := 0 }

/-- Concrete queue holding one old completed job and one pending job. -/
def jqMixed : JobQueue :=
  { jobs := [("a", jobOldDone), ("b", jobPendingOld)],
    handlers := ["b"], queue := ["b"] }

/-- Persisted record left running by a crashed process. -/
def jobRunningRec : Job :=
  { id := "jr", job_type := JobType.render_image, status := JobStatus.running,
    created_at := 1, started_at := some 2, progress := 1/2 }

/-- Persisted record left pending by a crashed process. -/
def jobPendingRec : Job :=
  { id := "jp", job_type := JobType.export, status := JobStatus.pending,
    created_at := 2 }

/-- Persisted record of a completed job. -/
def jobDoneRec : Job :=
  { id := "jc", job_type := JobType.render_image, status := JobStatus.completed,
    created_at := 0, started_at := some 1, completed_at := some 3, progress := 1 }

/-- Invariant: the progress of every stored job lies in the unit interval. -/
abbrev ProgressInv (q : JobQueue) : Prop :=
  ∀ kv ∈ q.jobs, 0 ≤ (Prod.snd (α := String) kv).progress ∧ kv.2.progress ≤ 1

/-- Concrete freshly submitted pending job. -/
def jobSubmitted : Job :=
  { id := "j1", job_type := JobType.render_image, status := JobStatus.pending,
    created_at := 1 }

/-- Concrete queue right after submitting "j1". -/
def jqPending : JobQueue :=
  (JobQueue.empty.submit "j1" JobType.render_image [] none 1).1

/-- The job "j1" after a worker ran it to completion. -/
def jobCompleted : Job :=
  { id := "j1", job_type := JobType.render_image, status := JobStatus.completed,
    created_at := 1, started_at := some 2, completed_at := some 3, progress := 1,
    result := some [] }

/-! ### Theorems -/

@[simp]
theorem dget_nil {V : Type} (key : String) : dget ([] : Dict V) key = none := rfl

@[simp]
theorem dget_cons {V : Type} (k key : String) (v : V) (rest : Dict V) :
    dget ((k, v) :: rest) key = if k = key then some v else dget rest key := rfl

@[simp]
theorem dget_dset_self {V : Type} (d : Dict V) (key : String) (v : V) :
    dget (dset d key v) key = some v := by
  induction d with
  | nil => simp [dset]
  | cons hd tl ih =>
      obtain ⟨k, w⟩ := hd
      by_cases h : k = key <;> simp [dset, h, ih]

theorem dget_dset_ne {V : Type} (d : Dict V) (key key' : String) (v : V)
    (h : key ≠ key') : dget (dset d key v) key' = dget d key' := by
  induction d with
  | nil => simp [dset, h]
  | cons hd tl ih =>
      obtain ⟨k, w⟩ := hd
      by_cases hk : k = key
      · subst hk; simp [dset, h]
      · simp only [dset, if_neg hk, dget_cons, ih]

theorem dget_dmodify_self {V : Type} (d : Dict V) (key : String) (f : V → V) :
    dget (dmodify d key f) key = (dget d key).map f := by
  induction d with
  | nil => simp [dmodify]
  | cons hd tl ih =>
      obtain ⟨k, w⟩ := hd
      by_cases h : k = key <;> simp [dmodify, h, ih]

theorem dget_dmodify_ne {V : Type} (d : Dict V) (key key' : String) (f : V → V)
    (h : key ≠ key') : dget (dmodify d key f) key' = dget d key' := by
  induction d with
  | nil => simp [dmodify]
  | cons hd tl ih =>
      obtain ⟨k, w⟩ := hd
      by_cases hk : k = key
      · subst hk; simp [dmodify, h]
      · simp only [dmodify, if_neg hk, dget_cons, ih]

@[simp]
theorem dget_ddel_self {V : Type} (d : Dict V) (key : String) :
    dget (ddel d key) key = none := by
  induction d with
  | nil => simp [ddel]
  | cons hd tl ih =>
      obtain ⟨k, w⟩ := hd
      by_cases h : k = key <;> simp [ddel, h, ih]

theorem dget_ddel_ne {V : Type} (d : Dict V) (key key' : String)
    (h : key ≠ key') : dget (ddel d key) key' = dget d key' := by
  induction d with
  | nil => simp [ddel]
  | cons hd tl ih =>
      obtain ⟨k, w⟩ := hd
      by_cases hk : k = key
      · subst hk; simp [ddel, h, ih]
      · simp [ddel, hk, ih]

theorem dget_mem {V : Type} {d : Dict V} {key : String} {v : V}
    (h : dget d key = some v) : (key, v) ∈ d := by
  induction d with
  | nil => simp [dget] at h
  | cons hd tl ih =>
      obtain ⟨k, w⟩ := hd
      by_cases hk : k = key
      · subst hk
        simp [dget] at h
        simp [h]
      · simp [dget, hk] at h
        exact List.mem_cons_of_mem _ (ih h)



/-- C2: for every input line whose decode as a Request fails, the request
handler returns exactly one well-formed Failure response whose error code
is parse-error and whose id is the synthetic string "unknown", and leaves
the bridge tables untouched, rather than raising or returning nothing. -/
theorem C2_parse_failure_unknown_response (st : BridgeState) (e : String)
    (wait : WaitOutcome) (elapsed : ℚ) :
    handle_request st (Except.error e) wait elapsed =
      (st, Response.failure "unknown" ErrorCode.parseError
        ("Invalid request: " ++ e) elapsed) := rfl

/-- C8 evidence (code bug): a request "r1" dispatched through the bridge
that times out waiting on its completion event gets the timeout Failure
response, but its completion-event registration is still present in the
bridge `result_events` table afterwards — the cleanup the claim (and
spec) require does not happen on the timeout path. -/
theorem C8_timeout_keeps_event_registration :
    (handle_request ⟨[], []⟩ (Except.ok ⟨"r1", 1, "health", []⟩)
        WaitOutcome.timedOut 0).1.result_events = ["r1"] ∧
    (handle_request ⟨[], []⟩ (Except.ok ⟨"r1", 1, "health", []⟩)
        WaitOutcome.timedOut 0).2 =
      Response.failure "r1" ErrorCode.internalError "Operation timed out" 0 :=
  ⟨rfl, rfl⟩

/-- C3: `cancel(job_id)` returns true iff the job exists with status
pending (false for unknown ids and non-pending jobs); on success the job
becomes cancelled with `completed_at` set and its handler entry removed;
on failure the whole state is unchanged. -/
theorem C3_cancel_spec (q : JobQueue) (id : String) (now : Nat) :
    ((q.cancel id now).2 = true ↔
        ∃ j, dget q.jobs id = some j ∧ j.status = JobStatus.pending) ∧
    (∀ j, dget q.jobs id = some j → j.status = JobStatus.pending →
        dget (q.cancel id now).1.jobs id =
          some { j with status := JobStatus.cancelled, completed_at := some now } ∧
        id ∉ (q.cancel id now).1.handlers) ∧
    ((q.cancel id now).2 = false → (q.cancel id now).1 = q) := by
  cases hj : dget q.jobs id with
  | none =>
      refine ⟨?_, ?_, ?_⟩
      · simp [JobQueue.cancel, hj]
      · intro j hj' _
        cases hj'
      · intro _
        simp [JobQueue.cancel, hj]
  | some job =>
      by_cases hs : job.status = JobStatus.pending
      · refine ⟨?_, ?_, ?_⟩
        · simp only [JobQueue.cancel, hj, hs]
          simp [hs]
        · intro j hj' hjs
          injection hj' with hje
          subst hje
          simp only [JobQueue.cancel, hj, hs]
          constructor
          · simp
          · simp [List.mem_filter]
        · intro hfalse
          simp only [JobQueue.cancel, hj, hs] at hfalse
          simp at hfalse
      · refine ⟨?_, ?_, ?_⟩
        · simp only [JobQueue.cancel, hj]
          constructor
          · intro h
            simp [hs] at h
          · rintro ⟨j, hj', hjs⟩
            injection hj' with hje
            subst hje
            exact absurd hjs hs
        · intro j hj' hjs
          injection hj' with hje
          subst hje
          exact absurd hjs hs
        · intro _
          simp [JobQueue.cancel, hj, hs]

/-- C3 witness: cancelling the freshly submitted pending job "j1"
succeeds, leaves it cancelled with `completed_at = 5`, and drops its
handler entry. -/
theorem C3_cancel_spec_witness :
    dget ((JobQueue.submit JobQueue.empty "j1" JobType.render_image [] none 1).1.cancel
        "j1" 5).1.jobs "j1" =
      some { id := "j1", job_type := JobType.render_image,
             status := JobStatus.cancelled, created_at := 1,
             completed_at := some 5 } ∧
    "j1" ∉ ((JobQueue.submit JobQueue.empty "j1" JobType.render_image [] none 1).1.cancel
        "j1" 5).1.handlers := by
  have h := (C3_cancel_spec
    (JobQueue.submit JobQueue.empty "j1" JobType.render_image [] none 1).1 "j1" 5).2.1
  have h2 := h { id := "j1", job_type := JobType.render_image,
                 status := JobStatus.pending, created_at := 1 }
    (by decide) rfl
  exact h2

theorem mem_ddel {V : Type} {d : Dict V} {key : String} {kv : String × V} :
    kv ∈ ddel d key ↔ kv ∈ d ∧ kv.1 ≠ key := by
  induction d with
  | nil => simp [ddel]
  | cons hd tl ih =>
      obtain ⟨k, w⟩ := hd
      by_cases hk : k = key
      · rw [show ddel ((k, w) :: tl) key = ddel tl key from by simp [ddel, hk]]
        rw [ih]
        subst hk
        simp only [List.mem_cons]
        constructor
        · rintro ⟨h1, h2⟩; exact ⟨Or.inr h1, h2⟩
        · rintro ⟨h1 | h1, h2⟩
          · subst h1; simp at h2
          · exact ⟨h1, h2⟩
      · rw [show ddel ((k, w) :: tl) key = (k, w) :: ddel tl key from by simp [ddel, hk]]
        simp only [List.mem_cons, ih]
        constructor
        · rintro (h | ⟨h1, h2⟩)
          · subst h; exact ⟨Or.inl rfl, hk⟩
          · exact ⟨Or.inr h1, h2⟩
        · rintro ⟨h | h1, h2⟩
          · subst h; exact Or.inl rfl
          · exact Or.inr ⟨h1, h2⟩

theorem ddel_sublist {V : Type} (d : Dict V) (key : String) :
    (ddel d key).Sublist d := by
  induction d with
  | nil => simp [ddel]
  | cons hd tl ih =>
      obtain ⟨k, w⟩ := hd
      by_cases hk : k = key
      · rw [show ddel ((k, w) :: tl) key = ddel tl key from by simp [ddel, hk]]
        exact ih.cons (k, w)
      · rw [show ddel ((k, w) :: tl) key = (k, w) :: ddel tl key from by simp [ddel, hk]]
        exact ih.cons₂ (k, w)

theorem dget_of_mem_nodup {V : Type} {d : Dict V} {k : String} {v : V}
    (hnd : (d.map Prod.fst).Nodup) (hmem : (k, v) ∈ d) : dget d k = some v := by
  induction d with
  | nil => simp at hmem
  | cons hd tl ih =>
      obtain ⟨k1, w⟩ := hd
      simp only [List.map_cons, List.nodup_cons] at hnd
      rcases List.mem_cons.mp hmem with h | h
      · cases h
        simp [dget]
      · have hk : k1 ≠ k := by
          intro he
          exact hnd.1 (he ▸ (List.mem_map.mpr ⟨(k, v), h, rfl⟩))
        simp only [dget_cons, if_neg hk]
        exact ih hnd.2 h

theorem firstDefault_mem {sessions : Dict Session} {s : Session}
    (h : firstDefault sessions = some s) :
    (∃ kv ∈ sessions, (Prod.snd (α := String) kv) = s) ∧ s.is_default = true := by
  have hmem := List.mem_of_find?_eq_some h
  have hp := List.find?_some h
  rcases List.mem_map.mp hmem with ⟨kv, hkv, hkv2⟩
  exact ⟨⟨kv, hkv, hkv2⟩, hp⟩

theorem C5_delete_spec (m : SessionManager) (id : String) (s : Session)
    (hs : dget m.sessions id = some s)
    (hkeys : KeysOk m.sessions)
    (hnodup : (m.sessions.map Prod.fst).Nodup) :
    (s.is_default = true →
        m.delete id =
          (m, Except.error (SessionError.invalidOperation "Cannot delete default session"))) ∧
    (s.is_default = false →
        (m.delete id).2 = Except.ok true ∧
        dget (m.delete id).1.sessions id = none ∧
        (∀ t ∈ (m.delete id).1.list, t.id ≠ id) ∧
        s.blend_file ∉ (m.delete id).1.files ∧
        (m.current_session_id = some id →
          ∀ d, firstDefault (ddel m.sessions id) = some d →
            (m.delete id).1.current_session_id = some d.id ∧
            (m.delete id).1.get_current = some d)) := by
  constructor
  · intro hdef
    simp [SessionManager.delete, hs, hdef]
  · intro hndef
    refine ⟨?_, ?_, ?_, ?_, ?_⟩
    · simp [SessionManager.delete, hs, hndef]
    · simp [SessionManager.delete, hs, hndef]
    · intro t ht
      simp only [SessionManager.delete, hs, hndef, Bool.false_eq_true, if_false,
        SessionManager.list] at ht
      rcases List.mem_map.mp ht with ⟨kv, hkv, hkv2⟩
      rcases mem_ddel.mp hkv with ⟨hkv3, hkv4⟩
      have := hkeys kv hkv3
      rw [← hkv2, this]
      exact hkv4
    · simp [SessionManager.delete, hs, hndef, List.mem_filter]
    · intro hcur d hfd
      rcases firstDefault_mem hfd with ⟨⟨kv, hkv, hkv2⟩, hdflt⟩
      rcases mem_ddel.mp hkv with ⟨hkv3, hkv4⟩
      have hkid : kv.1 = d.id := by rw [← hkv2]; exact (hkeys kv hkv3).symm
      have hnodup2 : ((ddel m.sessions id).map Prod.fst).Nodup :=
        hnodup.sublist ((ddel_sublist m.sessions id).map Prod.fst)
      have hmem2 : (d.id, d) ∈ ddel m.sessions id := by
        have : kv = (d.id, d) := by
          rcases kv with ⟨a, b⟩
          simp only at hkid hkv2
          rw [hkid, hkv2]
        rw [← this]; exact hkv
      have hget : dget (ddel m.sessions id) d.id = some d :=
        dget_of_mem_nodup hnodup2 hmem2
      constructor
      · simp [SessionManager.delete, hs, hndef, hcur, hfd]
      · simp [SessionManager.delete, SessionManager.get_current, hs, hndef, hcur, hfd, hget]

theorem C7_reset_spec (m : SessionManager) (sid : String) (s : Session) (now : Nat)
    (hs : dget m.sessions sid = some s) :
    (m.reset (some sid) now).2 = Except.ok { s with modified_at := now } ∧
    dget (m.reset (some sid) now).1.sessions sid = some { s with modified_at := now } ∧
    s.blend_file ∉ (m.reset (some sid) now).1.files ∧
    (m.current_session_id = some sid → m.reset none now = m.reset (some sid) now) := by
  refine ⟨?_, ?_, ?_, ?_⟩
  · simp [SessionManager.reset, hs]
  · simp [SessionManager.reset, hs]
  · simp [SessionManager.reset, hs, List.mem_filter]
  · intro hcur
    simp [SessionManager.reset, hcur, Option.orElse]

theorem C9_amended_pointer_changes (m : SessionManager) (op : SMOp) :
    (∀ id, dget m.sessions id = none →
        m.switch id = (m, Except.error (SessionError.notFound id))) ∧
    (∀ id s, dget m.sessions id = some s →
        (m.switch id).1.current_session_id = some id ∧ (m.switch id).2 = Except.ok s) ∧
    ((applySM m op).current_session_id ≠ m.current_session_id →
        (∃ id, op = SMOp.switchOp id) ∨
        (∃ id, op = SMOp.deleteOp id ∧ m.current_session_id = some id)) := by
  refine ⟨?_, ?_, ?_⟩
  · intro id h
    simp [SessionManager.switch, h]
  · intro id s h
    simp [SessionManager.switch, h]
  · intro hch
    cases op with
    | createOp name md nid now =>
        exact absurd rfl hch
    | switchOp sid => exact Or.inl ⟨sid, rfl⟩
    | deleteOp sid =>
        refine Or.inr ⟨sid, rfl, ?_⟩
        by_contra hne
        apply hch
        simp only [applySM, SessionManager.delete]
        cases hd : dget m.sessions sid with
        | none => rfl
        | some s =>
            by_cases hdef : s.is_default
            · simp [hdef]
            · simp [hdef, hne]
    | resetOp sid now =>
        apply absurd _ hch
        simp only [applySM, SessionManager.reset]
        cases hr : sid.orElse fun _ => m.current_session_id with
        | none => rfl
        | some sid2 =>
            cases hd : dget m.sessions sid2 with
            | none => simp [hd]
            | some s => simp [hd]
    | touchOp sid now =>
        apply absurd _ hch
        simp only [applySM, SessionManager.update_modified]
        cases hr : sid.orElse fun _ => m.current_session_id with
        | none => rfl
        | some sid2 =>
            cases hd : dget m.sessions sid2 with
            | none => simp [hd]
            | some s => simp [hd]

/-- C5 witness: on the concrete manager, deleting the default session
raises invalid-operation leaving the state untouched, while deleting the
current non-default session "s2" succeeds and re-points the current
session at the default. -/
theorem C5_delete_spec_witness :
    smExample.delete "default" =
      (smExample,
       Except.error (SessionError.invalidOperation "Cannot delete default session")) ∧
    (smExample.delete "s2").2 = Except.ok true ∧
    (smExample.delete "s2").1.get_current = some sessionDefault := by
  have h1 := (C5_delete_spec smExample "default" sessionDefault
    (by decide) (by decide) (by decide)).1 rfl
  have h2 := (C5_delete_spec smExample "s2" sessionWork
    (by decide) (by decide) (by decide)).2 rfl
  exact ⟨h1, h2.1, (h2.2.2.2.2 rfl sessionDefault (by decide)).2⟩

/-- C7 witness: resetting the concrete session "s2" returns it with only
`modified_at` changed, removes its backing file, and `reset` with no
argument acts on the current session. -/
theorem C7_reset_spec_witness :
    (smExample.reset (some "s2") 9).2 =
      Except.ok { sessionWork with modified_at := 9 } ∧
    sessionWork.blend_file ∉ (smExample.reset (some "s2") 9).1.files ∧
    smExample.reset none 9 = smExample.reset (some "s2") 9 := by
  have h := C7_reset_spec smExample "s2" sessionWork 9 (by decide)
  exact ⟨h.1, h.2.2.1, h.2.2.2 rfl⟩

/-- C9 counterexample: deleting the current non-default session "s2" (an
operation that is not a switch) changes `current_session_id` from
`some "s2"` to `some "default"`, so a successful switch is not the only
operation of the SessionManager that changes the current pointer. -/
theorem C9_delete_moves_pointer :
    smExample.current_session_id = some "s2" ∧
    (applySM smExample (SMOp.deleteOp "s2")).current_session_id = some "default" := by
  decide

/-- C9 witness: on the concrete manager, `update_modified` leaves the
current pointer alone and switching to "default" re-points it. -/
theorem C9_amended_witness :
    (applySM smExample (SMOp.touchOp none 9)).current_session_id =
      smExample.current_session_id ∧
    (smExample.switch "default").1.current_session_id = some "default" := by
  constructor
  · by_contra hne
    rcases (C9_amended_pointer_changes smExample (SMOp.touchOp none 9)).2.2 hne with
      ⟨id, h⟩ | ⟨id, h, -⟩ <;> cases h
  · exact ((C9_amended_pointer_changes smExample (SMOp.switchOp "default")).2.1
      "default" sessionDefault (by decide)).1


theorem dget_none_of_not_key {V : Type} {d : Dict V} {k : String}
    (h : k ∉ d.map Prod.fst) : dget d k = none := by
  induction d with
  | nil => rfl
  | cons hd tl ih =>
      obtain ⟨k1, w⟩ := hd
      simp only [List.map_cons, List.mem_cons] at h
      push_neg at h
      rw [dget_cons, if_neg (Ne.symm h.1)]
      exact ih h.2

theorem dget_filter_of_sat {V : Type} {d : Dict V} {k : String} {v : V}
    (p : String × V → Bool)
    (h : dget d k = some v) (hp : p (k, v) = true) :
    dget (d.filter p) k = some v := by
  induction d with
  | nil => simp [dget] at h
  | cons hd tl ih =>
      obtain ⟨k1, w⟩ := hd
      by_cases hk : k1 = k
      · subst hk
        simp only [dget_cons, if_pos rfl] at h
        cases h
        simp [List.filter_cons, hp]
      · simp only [dget_cons, if_neg hk] at h
        cases hpw : p (k1, w) with
        | false =>
            rw [List.filter_cons, if_neg (by simp [hpw])]
            exact ih h
        | true =>
            rw [List.filter_cons, if_pos hpw, dget_cons, if_neg hk]
            exact ih h

theorem dget_filter_of_unsat {V : Type} {d : Dict V} {k : String} {v : V}
    (p : String × V → Bool) (hnd : (d.map Prod.fst).Nodup)
    (h : dget d k = some v) (hp : p (k, v) = false) :
    dget (d.filter p) k = none := by
  induction d with
  | nil => simp [dget] at h
  | cons hd tl ih =>
      obtain ⟨k1, w⟩ := hd
      simp only [List.map_cons, List.nodup_cons] at hnd
      by_cases hk : k1 = k
      · subst hk
        simp only [dget_cons, if_pos rfl] at h
        cases h
        rw [List.filter_cons, if_neg (by simp [hp])]
        apply dget_none_of_not_key
        intro hmem
        exact hnd.1 ((tl.filter_sublist.map Prod.fst).subset hmem)
      · simp only [dget_cons, if_neg hk] at h
        cases hpw : p (k1, w) with
        | false =>
            rw [List.filter_cons, if_neg (by simp [hpw])]
            exact ih hnd.2 h
        | true =>
            rw [List.filter_cons, if_pos hpw, dget_cons, if_neg hk]
            exact ih hnd.2 h

theorem filter_length_partition {α : Type} (l : List α) (p : α → Bool) :
    (l.filter p).length + (l.filter (fun a => !(p a))).length = l.length := by
  induction l with
  | nil => rfl
  | cons hd tl ih =>
      rcases hp : p hd with _ | _ <;>
        simp [List.filter_cons, hp, ← ih] <;> omega

theorem C6_cleanup_spec (q : JobQueue) (now h : Nat)
    (hnd : (q.jobs.map Prod.fst).Nodup) :
    (∀ id j t, dget q.jobs id = some j → isTerminal j.status = true →
        j.completed_at = some t → t < now - h * 3600 →
        dget (q.cleanup now h).1.jobs id = none) ∧
    (∀ id j, dget q.jobs id = some j →
        (isTerminal j.status = false ∨
         j.completed_at = none ∨
         (∀ t, j.completed_at = some t → ¬ t < now - h * 3600)) →
        dget (q.cleanup now h).1.jobs id = some j) ∧
    (∀ id j, dget q.jobs id = some j →
        (j.status = JobStatus.pending ∨ j.status = JobStatus.running) →
        dget (q.cleanup now h).1.jobs id = some j) ∧
    (q.cleanup now h).2 + (q.cleanup now h).1.jobs.length = q.jobs.length := by
  refine ⟨?_, ?_, ?_, ?_⟩
  · intro id j t hj hterm hc hlt
    apply dget_filter_of_unsat _ hnd hj
    simp [hterm, hc, hlt]
  · intro id j hj hkeep
    apply dget_filter_of_sat _ hj
    rcases hkeep with hk | hk | hk
    · simp [hk]
    · simp [hk]
    · rcases hc : j.completed_at with _ | t
      · simp [hc]
      · simp [hc, hk t hc]
  · intro id j hj hpr
    apply dget_filter_of_sat _ hj
    rcases hpr with hk | hk <;> simp [hk, isTerminal]
  · have := filter_length_partition q.jobs
      (fun kv => isTerminal kv.2.status &&
        (match kv.2.completed_at with
         | some t => decide (t < now - h * 3600)
         | none => false))
    simp only [JobQueue.cleanup]
    omega

/-- C6 witness: on the concrete queue, cleanup at time 10000 with a 1-hour
cutoff removes exactly the completed job finished at time 100, keeps the
pending job regardless of age, and the returned count accounts for the
removed jobs. -/
theorem C6_cleanup_spec_witness :
    dget (jqMixed.cleanup 10000 1).1.jobs "a" = none ∧
    dget (jqMixed.cleanup 10000 1).1.jobs "b" = some jobPendingOld ∧
    (jqMixed.cleanup 10000 1).2 + (jqMixed.cleanup 10000 1).1.jobs.length =
      jqMixed.jobs.length := by
  have h := C6_cleanup_spec jqMixed 10000 1 (by decide)
  exact ⟨h.1 "a" jobOldDone 100 (by decide) (by decide) (by decide) (by decide),
         h.2.2.1 "b" jobPendingOld (by decide) (Or.inl (by decide)),
         h.2.2.2⟩


theorem load_foldl_untouched (recs : List Job) (acc : JobQueue) (id : String)
    (h : id ∉ recs.map Job.id) :
    dget (recs.foldl loadOne acc).jobs id = dget acc.jobs id ∧
    (id ∈ (recs.foldl loadOne acc).queue ↔ id ∈ acc.queue) := by
  induction recs generalizing acc with
  | nil => exact ⟨rfl, Iff.rfl⟩
  | cons r rest ih =>
      simp only [List.map_cons, List.mem_cons] at h
      push_neg at h
      rw [List.foldl_cons]
      have hstep : dget (loadOne acc r).jobs id = dget acc.jobs id ∧
          (id ∈ (loadOne acc r).queue ↔ id ∈ acc.queue) := by
        unfold loadOne
        by_cases hs : r.status = JobStatus.pending ∨ r.status = JobStatus.running
        · simp only [hs, if_true]
          constructor
          · exact dget_dset_ne _ _ _ _ (Ne.symm h.1)
          · simp [List.mem_append, h.1]
        · simp only [hs, if_false]
          exact ⟨dget_dset_ne _ _ _ _ (Ne.symm h.1), trivial⟩
      obtain ⟨ih1, ih2⟩ := ih (loadOne acc r) h.2
      exact ⟨ih1.trans hstep.1, ih2.trans hstep.2⟩

theorem load_foldl_spec (recs : List Job) (acc : JobQueue)
    (hnd : (recs.map Job.id).Nodup)
    (hq : ∀ r ∈ recs, r.id ∉ acc.queue) :
    ∀ r ∈ recs,
      ((r.status = JobStatus.pending ∨ r.status = JobStatus.running) →
          dget (recs.foldl loadOne acc).jobs r.id =
            some { r with status := JobStatus.pending, progress := 0 } ∧
          r.id ∈ (recs.foldl loadOne acc).queue) ∧
      (isTerminal r.status = true →
          dget (recs.foldl loadOne acc).jobs r.id = some r ∧
          r.id ∉ (recs.foldl loadOne acc).queue) := by
  induction recs generalizing acc with
  | nil => intro r hr; simp at hr
  | cons r0 rest ih =>
      simp only [List.map_cons, List.nodup_cons] at hnd
      intro r hr
      rw [List.foldl_cons]
      rcases List.mem_cons.mp hr with hr0 | hrest
      · subst hr0
        have huntouched := load_foldl_untouched rest (loadOne acc r) r.id hnd.1
        constructor
        · intro hpr
          refine ⟨?_, ?_⟩
          · rw [huntouched.1]
            unfold loadOne
            simp only [hpr, if_true]
            exact dget_dset_self _ _ _
          · rw [huntouched.2]
            unfold loadOne
            simp [hpr]
        · intro hterm
          have hnpr : ¬(r.status = JobStatus.pending ∨ r.status = JobStatus.running) := by
            rcases r with ⟨_, _, st, _⟩
            cases st <;> simp_all [isTerminal]
          refine ⟨?_, ?_⟩
          · rw [huntouched.1]
            unfold loadOne
            simp only [hnpr, if_false]
            exact dget_dset_self _ _ _
          · rw [huntouched.2]
            unfold loadOne
            simp only [hnpr, if_false]
            exact hq r (List.mem_cons_self _ _)
      · have hq2 : ∀ s ∈ rest, s.id ∉ (loadOne acc r0).queue := by
          intro s hs
          have hsid : s.id ≠ r0.id := by
            intro he
            exact hnd.1 (he ▸ List.mem_map.mpr ⟨s, hs, rfl⟩)
          have hsq : s.id ∉ acc.queue := hq s (List.mem_cons_of_mem _ hs)
          unfold loadOne
          by_cases hs0 : r0.status = JobStatus.pending ∨ r0.status = JobStatus.running
          · simp only [hs0, if_true]
            simp [List.mem_append, hsq, hsid]
          · simp only [hs0, if_false]
            exact hsq
        exact ih (loadOne acc r0) hnd.2 hq2 r hrest

/-- C4: on construction, every persisted record with status pending or
running is loaded as pending with progress 0 and its id re-queued, while
records in a terminal status keep their persisted status and progress and
are not enqueued (persisted ids are unique). -/
theorem C4_load_spec (records : List Job)
    (hnd : (records.map Job.id).Nodup) :
    ∀ r ∈ records,
      ((r.status = JobStatus.pending ∨ r.status = JobStatus.running) →
          dget (load_jobs records).jobs r.id =
            some { r with status := JobStatus.pending, progress := 0 } ∧
          r.id ∈ (load_jobs records).queue) ∧
      (isTerminal r.status = true →
          dget (load_jobs records).jobs r.id = some r ∧
          r.id ∉ (load_jobs records).queue) := by
  have h := load_foldl_spec records JobQueue.empty hnd (by intro r _; simp [JobQueue.empty])
  exact h

/-- C4 witness: reloading a log with one running, one pending and one
completed record leaves the first two pending with progress 0 and
re-queued, while the completed record is kept verbatim and not
enqueued. -/
theorem C4_load_spec_witness :
    dget (load_jobs [jobRunningRec, jobPendingRec, jobDoneRec]).jobs "jr" =
      some { jobRunningRec with status := JobStatus.pending, progress := 0 } ∧
    "jr" ∈ (load_jobs [jobRunningRec, jobPendingRec, jobDoneRec]).queue ∧
    dget (load_jobs [jobRunningRec, jobPendingRec, jobDoneRec]).jobs "jc" =
      some jobDoneRec ∧
    "jc" ∉ (load_jobs [jobRunningRec, jobPendingRec, jobDoneRec]).queue := by
  have h := C4_load_spec [jobRunningRec, jobPendingRec, jobDoneRec] (by decide)
  have h1 := (h jobRunningRec (by simp)).1 (Or.inr (by decide))
  have h2 := (h jobDoneRec (by simp)).2 (by decide)
  exact ⟨h1.1, h1.2, h2.1, h2.2⟩


theorem pymax_eq_max (a b : ℚ) : pymax a b = max a b := by
  unfold pymax
  by_cases h : a < b
  · rw [if_pos h, max_eq_right h.le]
  · rw [if_neg h, max_eq_left (not_lt.mp h)]

theorem pymin_eq_min (a b : ℚ) : pymin a b = min a b := by
  unfold pymin
  by_cases h : b < a
  · rw [if_pos h, min_eq_right h.le]
  · rw [if_neg h, min_eq_left (not_lt.mp h)]

theorem mem_dset {V : Type} {d : Dict V} {k : String} {v : V} {kv : String × V}
    (h : kv ∈ dset d k v) : kv = (k, v) ∨ kv ∈ d := by
  induction d with
  | nil => simpa [dset] using h
  | cons hd tl ih =>
      obtain ⟨k1, w⟩ := hd
      by_cases hk : k1 = k
      · subst hk
        rw [show dset ((k1, w) :: tl) k1 v = (k1, v) :: tl from by simp [dset]] at h
        rcases List.mem_cons.mp h with h | h
        · exact Or.inl h
        · exact Or.inr (List.mem_cons_of_mem _ h)
      · rw [show dset ((k1, w) :: tl) k v = (k1, w) :: dset tl k v from by
          simp [dset, hk]] at h
        rcases List.mem_cons.mp h with h | h
        · exact Or.inr (h ▸ List.mem_cons_self _ _)
        · rcases ih h with h | h
          · exact Or.inl h
          · exact Or.inr (List.mem_cons_of_mem _ h)

theorem mem_dmodify {V : Type} {d : Dict V} {k : String} {f : V → V}
    {kv : String × V} (h : kv ∈ dmodify d k f) :
    kv ∈ d ∨ ∃ v, (k, v) ∈ d ∧ kv = (k, f v) := by
  induction d with
  | nil => simp [dmodify] at h
  | cons hd tl ih =>
      obtain ⟨k1, w⟩ := hd
      by_cases hk : k1 = k
      · subst hk
        rw [show dmodify ((k1, w) :: tl) k1 f = (k1, f w) :: tl from by
          simp [dmodify]] at h
        rcases List.mem_cons.mp h with h | h
        · exact Or.inr ⟨w, List.mem_cons_self _ _, h⟩
        · exact Or.inl (List.mem_cons_of_mem _ h)
      · rw [show dmodify ((k1, w) :: tl) k f = (k1, w) :: dmodify tl k f from by
          simp [dmodify, hk]] at h
        rcases List.mem_cons.mp h with h | h
        · exact Or.inl (h ▸ List.mem_cons_self _ _)
        · rcases ih h with h | ⟨v, hv, he⟩
          · exact Or.inl (List.mem_cons_of_mem _ h)
          · exact Or.inr ⟨v, List.mem_cons_of_mem _ hv, he⟩

theorem clamp_mem_unit (p : ℚ) : 0 ≤ min (max p 0) 1 ∧ min (max p 0) 1 ≤ 1 :=
  ⟨le_min (le_max_right _ _) zero_le_one, min_le_right _ _⟩

theorem clamp_pymem (p : ℚ) : 0 ≤ pymin (pymax p 0) 1 ∧ pymin (pymax p 0) 1 ≤ 1 := by
  rw [pymin_eq_min, pymax_eq_max]
  exact clamp_mem_unit p

theorem progress_inv_pc (acc : JobQueue) (id : String) (p : ℚ) (m : String)
    (h : ProgressInv acc) : ProgressInv (acc.progress_callback id p m) := by
  unfold JobQueue.progress_callback
  cases hq : dget acc.jobs id with
  | none => exact h
  | some v =>
      intro kv hkv
      rcases mem_dmodify hkv with hin | ⟨w, hw, he⟩
      · exact h kv hin
      · subst he
        exact clamp_pymem p

theorem progress_inv_fold (pcs : List (ℚ × String)) (acc : JobQueue) (id : String)
    (h : ProgressInv acc) :
    ProgressInv (pcs.foldl (fun a pc => a.progress_callback id pc.1 pc.2) acc) := by
  induction pcs generalizing acc with
  | nil => exact h
  | cons pc rest ih =>
      rw [List.foldl_cons]
      exact ih _ (progress_inv_pc acc id pc.1 pc.2 h)

/-- C10: every progress value a handler passes to its progress callback is
stored clamped to `min (max p 0) 1` (so also for `p < 0` or `p > 1`), and
every job-queue operation preserves the invariant that all stored
progress values lie in `[0, 1]`. -/
theorem C10_progress_clamped :
    (∀ q id p msg j,
        dget (JobQueue.progress_callback q id p msg).jobs id = some j →
        j.progress = min (max p 0) 1 ∧ 0 ≤ j.progress ∧ j.progress ≤ 1) ∧
    (∀ q s, ProgressInv q → ProgressInv (applyStep q s)) := by
  constructor
  · intro q id p msg j h
    cases hq : dget q.jobs id with
    | none =>
        unfold JobQueue.progress_callback at h
        rw [hq] at h
        rw [hq] at h
        cases h
    | some v =>
        unfold JobQueue.progress_callback at h
        rw [hq] at h
        rw [dget_dmodify_self, hq] at h
        cases h
        refine ⟨?_, clamp_pymem p⟩
        show pymin (pymax p 0) 1 = min (max p 0) 1
        rw [pymin_eq_min, pymax_eq_max]
  · intro q s h
    cases s with
    | submitOp id jt ps sid now =>
        intro kv hkv
        rcases mem_dset hkv with he | hin
        · subst he
          exact ⟨le_refl 0, zero_le_one⟩
        · exact h kv hin
    | cancelOp id now =>
        simp only [applyStep, JobQueue.cancel]
        cases hq : dget q.jobs id with
        | none => exact h
        | some job =>
            by_cases hs : job.status = JobStatus.pending
            · simp only [hs, ne_eq, not_true_eq_false, if_false]
              intro kv hkv
              rcases mem_dset hkv with he | hin
              · subst he
                exact h (id, job) (dget_mem hq)
              · exact h kv hin
            · simp only [ne_eq, hs, not_false_eq_true, if_true]
              exact h
    | cleanupOp now mah =>
        intro kv hkv
        exact h kv (List.mem_of_mem_filter hkv)
    | workOp outcome pcs ts te =>
        cases hqu : q.queue with
        | nil => simpa only [applyStep, hqu] using h
        | cons id0 rest =>
            simp only [applyStep, hqu]
            unfold JobQueue.processJob
            cases hq : dget q.jobs id0 with
            | none => exact h
            | some job =>
                by_cases hh : id0 ∈ q.handlers
                · simp only [hh, if_true]
                  have hbase : ∀ jb : Job, jb.progress = job.progress →
                      ProgressInv { q with queue := rest, jobs := dset q.jobs id0 jb } := by
                    intro jb hjb kv hkv
                    rcases mem_dset hkv with he | hin
                    · subst he
                      simp only [hjb]
                      exact h (id0, job) (dget_mem hq)
                    · exact h kv hin
                  have hfold := progress_inv_fold pcs _ id0
                    (hbase ({ job with status := JobStatus.running, started_at := some ts }) rfl)
                  intro kv hkv
                  rcases mem_dmodify hkv with hin | ⟨v, hv, he⟩
                  · exact hfold kv hin
                  · subst he
                    cases outcome with
                    | success r => exact ⟨zero_le_one, le_refl 1⟩
                    | failure msg => exact hfold (id0, v) hv
                · simp only [hh, if_false]
                  intro kv hkv
                  rcases mem_dset hkv with he | hin
                  · subst he
                    exact h (id0, job) (dget_mem hq)
                  · exact h kv hin

/-- C10 witness: feeding the out-of-range progress value 3 through the
callback of the concrete pending job stores exactly the clamp
`min (max 3 0) 1 = 1`; and a concrete step preserves the progress
invariant. -/
theorem C10_progress_clamped_witness :
    (({ jobSubmitted with progress := 1, progress_message := "half" } : Job).progress =
      min (max (3 : ℚ) 0) 1 ∧
    0 ≤ ({ jobSubmitted with progress := 1, progress_message := "half" } : Job).progress ∧
    ({ jobSubmitted with progress := 1, progress_message := "half" } : Job).progress ≤ 1) ∧
    ProgressInv (applyStep jqPending (Step.cancelOp "j1" 5)) :=
  ⟨C10_progress_clamped.1 jqPending "j1" 3 "half" _ (by decide),
   C10_progress_clamped.2 jqPending (Step.cancelOp "j1" 5) (by decide)⟩

theorem statusPath_refl (s : JobStatus) : statusPath s s = true := by
  cases s <;> rfl

theorem pc_dget_ne (acc : JobQueue) (id0 id : String) (p : ℚ) (m : String)
    (h : id0 ≠ id) :
    dget (acc.progress_callback id0 p m).jobs id = dget acc.jobs id := by
  unfold JobQueue.progress_callback
  cases hq : dget acc.jobs id0 with
  | none => rfl
  | some v => exact dget_dmodify_ne _ _ _ _ h

theorem pc_fold_dget_ne (pcs : List (ℚ × String)) (acc : JobQueue)
    (id0 id : String) (h : id0 ≠ id) :
    dget ((pcs.foldl (fun a pc => a.progress_callback id0 pc.1 pc.2) acc)).jobs id =
      dget acc.jobs id := by
  induction pcs generalizing acc with
  | nil => rfl
  | cons pc rest ih =>
      rw [List.foldl_cons]
      exact (ih _).trans (pc_dget_ne acc id0 id pc.1 pc.2 h)

/-- C1 counterexample: submit "j1", cancel it (now terminal Cancelled),
then let a worker pull its id from the FIFO: `_process_job` finds no
handler and overwrites the terminal status with Failed, so a terminal job
is not immutable. -/
theorem C1_terminal_not_immutable :
    (dget ((JobQueue.empty.submit "j1" JobType.render_image [] none 1).1.cancel
        "j1" 2).1.jobs "j1").map Job.status = some JobStatus.cancelled ∧
    isTerminal JobStatus.cancelled = true ∧
    (dget (applyStep ((JobQueue.empty.submit "j1" JobType.render_image [] none
        1).1.cancel "j1" 2).1
        (Step.workOp (HandlerOutcome.success []) [] 3 4)).jobs "j1").map Job.status =
      some JobStatus.failed := by
  decide

/-- C1 amended: under the reachable-state invariants (unique job keys,
terminal jobs have no handler, queued ids are pending or cancelled) and
uuid-freshness of submitted ids, every job-queue operation moves each
status of each job along `pending → running → (completed | failed)` /
`pending → cancelled` extended with `cancelled → failed`; completed and
failed jobs are immutable (up to cleanup removal), and a cancelled job is
either untouched or exactly overwritten to Failed with error
"No handler registered" by a worker that pulls its id. -/
theorem C1_amended_transitions (q : JobQueue) (s : Step) (id : String) (j j' : Job)
    (hnd : (q.jobs.map Prod.fst).Nodup)
    (hH : HandlersOk q) (hQ : QueueOk q) (hOk : StepOk q s)
    (hj : dget q.jobs id = some j)
    (hj' : dget (applyStep q s).jobs id = some j') :
    statusPath j.status j'.status = true ∧
    ((j.status = JobStatus.completed ∨ j.status = JobStatus.failed) → j' = j) ∧
    (j.status = JobStatus.cancelled →
        j' = j ∨
        j' = { j with status := JobStatus.failed, error := some "No handler registered" }) := by
  have base : j' = j →
      statusPath j.status j'.status = true ∧
      ((j.status = JobStatus.completed ∨ j.status = JobStatus.failed) → j' = j) ∧
      (j.status = JobStatus.cancelled →
        j' = j ∨
        j' = { j with status := JobStatus.failed, error := some "No handler registered" }) := by
    intro he
    subst he
    exact ⟨statusPath_refl _, fun _ => rfl, fun _ => Or.inl rfl⟩
  cases s with
  | submitOp id2 jt ps sid now =>
      simp only [StepOk] at hOk
      simp only [applyStep, JobQueue.submit] at hj'
      by_cases hid : id2 = id
      · subst hid
        rw [hOk] at hj
        exact Option.noConfusion hj
      · rw [dget_dset_ne _ _ _ _ hid] at hj'
        exact base (Option.some.inj (hj.symm.trans hj')).symm
  | cancelOp id2 now =>
      simp only [applyStep, JobQueue.cancel] at hj'
      cases hc : dget q.jobs id2 with
      | none =>
          rw [hc] at hj'
          exact base (Option.some.inj (hj.symm.trans hj')).symm
      | some job2 =>
          rw [hc] at hj'
          by_cases hs2 : job2.status = JobStatus.pending
          · simp only [hs2, ne_eq, not_true_eq_false, if_false] at hj'
            by_cases hid : id2 = id
            · subst hid
              have hjj : j = job2 := Option.some.inj (hj.symm.trans hc)
              subst hjj
              rw [dget_dset_self] at hj'
              have hj'e := (Option.some.inj hj').symm
              subst hj'e
              refine ⟨?_, ?_, ?_⟩
              · rw [hs2]; rfl
              · intro hcf
                rw [hs2] at hcf
                rcases hcf with h | h <;> cases h
              · intro hcanc
                rw [hs2] at hcanc
                cases hcanc
            · rw [dget_dset_ne _ _ _ _ hid] at hj'
              exact base (Option.some.inj (hj.symm.trans hj')).symm
          · simp only [ne_eq, hs2, not_false_eq_true, if_true] at hj'
            exact base (Option.some.inj (hj.symm.trans hj')).symm
  | cleanupOp now mah =>
      simp only [applyStep, JobQueue.cleanup] at hj'
      cases hdo : (isTerminal j.status &&
          (match j.completed_at with
           | some t => decide (t < now - mah * 3600)
           | none => false)) with
      | true =>
          rw [dget_filter_of_unsat _ hnd hj (by simp [hdo])] at hj'
          exact Option.noConfusion hj'
      | false =>
          rw [dget_filter_of_sat _ hj (by simp [hdo])] at hj'
          exact base (Option.some.inj hj').symm
  | workOp outcome pcs ts te =>
      cases hqu : q.queue with
      | nil =>
          have happ : applyStep q (Step.workOp outcome pcs ts te) = q := by
            simp only [applyStep, hqu]
          rw [happ] at hj'
          exact base (Option.some.inj (hj.symm.trans hj')).symm
      | cons id0 rest =>
          have happ : applyStep q (Step.workOp outcome pcs ts te) =
              JobQueue.processJob { q with queue := rest } id0 outcome pcs ts te := by
            simp only [applyStep, hqu]
          rw [happ] at hj'
          unfold JobQueue.processJob at hj'
          cases hq0 : dget q.jobs id0 with
          | none =>
              rw [show dget ({ q with queue := rest } : JobQueue).jobs id0 = none from hq0] at hj'
              exact base (Option.some.inj (hj.symm.trans hj')).symm
          | some job0 =>
              rw [show dget ({ q with queue := rest } : JobQueue).jobs id0 = some job0 from hq0] at hj'
              have hmem0 : (id0, job0) ∈ q.jobs := dget_mem hq0
              have hstat0 : job0.status = JobStatus.pending ∨
                  job0.status = JobStatus.cancelled :=
                hQ id0 (by rw [hqu]; exact List.mem_cons_self _ _) (id0, job0) hmem0 rfl
              by_cases hh : id0 ∈ q.handlers
              · have hpend : job0.status = JobStatus.pending := by
                  rcases hstat0 with h | h
                  · exact h
                  · exact absurd hh (hH (id0, job0) hmem0 (by rw [h]; rfl))
                simp only [hh, if_true] at hj'
                by_cases hid : id0 = id
                · subst hid
                  have hjj : j = job0 := Option.some.inj (hj.symm.trans hq0)
                  subst hjj
                  rw [dget_dmodify_self] at hj'
                  obtain ⟨v, hv, hfv⟩ := Option.map_eq_some'.mp hj'
                  refine ⟨?_, ?_, ?_⟩
                  · rw [hpend]; rfl
                  · intro hcf
                    rw [hpend] at hcf
                    rcases hcf with h | h <;> cases h
                  · intro hcanc
                    rw [hpend] at hcanc
                    cases hcanc
                · rw [dget_dmodify_ne _ _ _ _ hid,
                      pc_fold_dget_ne _ _ _ _ hid,
                      dget_dset_ne _ _ _ _ hid] at hj'
                  exact base (Option.some.inj (hj.symm.trans hj')).symm
              · simp only [hh, if_false] at hj'
                by_cases hid : id0 = id
                · subst hid
                  have hjj : j = job0 := Option.some.inj (hj.symm.trans hq0)
                  subst hjj
                  rw [dget_dset_self] at hj'
                  have hj'e := (Option.some.inj hj').symm
                  subst hj'e
                  refine ⟨?_, ?_, ?_⟩
                  · rcases hstat0 with h | h <;> rw [h] <;> rfl
                  · intro hcf
                    rcases hstat0 with h | h <;> rw [h] at hcf <;>
                      rcases hcf with h2 | h2 <;> cases h2
                  · intro hcanc
                    exact Or.inr rfl
                · rw [dget_dset_ne _ _ _ _ hid] at hj'
                  exact base (Option.some.inj (hj.symm.trans hj')).symm

/-- C1 witness: on the concrete queue holding the freshly submitted
pending job "j1", one worker step runs it to completion, a transition
along the allowed path. -/
theorem C1_amended_witness :
    statusPath jobSubmitted.status jobCompleted.status = true ∧
    ((jobSubmitted.status = JobStatus.completed ∨
        jobSubmitted.status = JobStatus.failed) → jobCompleted = jobSubmitted) ∧
    (jobSubmitted.status = JobStatus.cancelled →
        jobCompleted = jobSubmitted ∨
        jobCompleted = { jobSubmitted with status := JobStatus.failed, error := some "No handler registered" }) :=
  C1_amended_transitions jqPending (Step.workOp (HandlerOutcome.success []) [] 2 3)
    "j1" jobSubmitted jobCompleted (by decide) (by decide) (by decide) trivial
    (by decide) (by decide)

end Fgp
